import Mathlib

/-!
Verification of the clean_fastapi repository core: keyset pagination,
tag resolution, unit of work, user creation, JWT verification and the
cursor codec, shallowly embedded from the Python sources.

Modelling conventions:
* Python/SQL strings are embedded as `List Char` (`Str`); SQL and Python
  compare strings lexicographically by code point, which is the order of
  `List Char` under the `Char` order.
* `datetime` values are embedded as `Nat` instants wherever only their
  linear order matters (column values, token expiries); the cursor codec,
  which inspects the textual ISO form, uses an explicit `PyDateTime`
  record of calendar fields.
* Async calls are embedded as sequential calls; each `await` point is a
  plain function application.
* A SQL table is a list of rows; a primary key is a `Nodup` hypothesis on
  the ids.  An `ORDER BY` result is the unique reordering of the filtered
  rows that satisfies the ordering predicate (computed with an insertion
  sort and pinned down by antisymmetry).
-/

/-- Embedding of Python / SQL strings. -/
abbrev Str : Type := List Char

/-- The SQL tuple comparison `tuple_(created_at, id) < (c, i)` used by the
keyset predicate in `SqlAlchemyNoteRepository.get_notes`: lexicographic
order on `(created_at, id)`. -/
def KeyLt (a b : Nat × Str) : Prop :=
  a.1 < b.1 ∨ (a.1 = b.1 ∧ a.2 < b.2)

instance (a b : Nat × Str) : Decidable (KeyLt a b) := by
  unfold KeyLt; infer_instance

/-- Insert into a list sorted by the boolean relation `r` (generic helper
used to give SQL `ORDER BY` results a computable meaning). -/
def insertSorted (r : α → α → Bool) (x : α) : List α → List α
  | [] => [x]
  | y :: ys => if r x y then x :: y :: ys else y :: insertSorted r x ys

/-- Insertion sort by the boolean relation `r`. -/
def sortBy (r : α → α → Bool) : List α → List α
  | [] => []
  | x :: xs => insertSorted r x (sortBy r xs)

/-! ## Note rows (src/project/src/note/entities.py) -/

/-- A row of the `note` table (`entities.Note`).  `created_at` and
`updated_at` are instants in their linear order. -/
structure NoteRow where
  id : Str
  user_id : Str
  title : Str
  content : Str
  memo_date : Str
  created_at : Nat
  updated_at : Nat
deriving DecidableEq, Repr

/-- The keyset sort key `(created_at, id)` of a note row. -/
def NoteRow.key (n : NoteRow) : Nat × Str := (n.created_at, n.id)

/-- Row `n` sorts strictly before `m` under `ORDER BY created_at DESC, id DESC`. -/
def NoteGt (n m : NoteRow) : Prop := KeyLt m.key n.key

/-- Boolean form of "`n` may come no later than `m`" in descending key
order (the comparator realising `ORDER BY created_at DESC, id DESC`). -/
def noteOrd (n m : NoteRow) : Bool := !(decide (KeyLt n.key m.key))

instance : IsAntisymm NoteRow NoteGt where
  antisymm a b h1 h2 := by
    exfalso
    unfold NoteGt KeyLt at h1 h2
    rcases h1 with h1 | ⟨e1, l1⟩ <;> rcases h2 with h2 | ⟨e2, l2⟩
    · exact absurd h2 (Nat.lt_asymm h1)
    · exact absurd h1 (e2 ▸ lt_irrefl _)
    · exact absurd h2 (e1 ▸ lt_irrefl _)
    · exact absurd l2 (lt_asymm l1)

/-! ## Note repository keyset listing
(src/project/src/note/repository.py, `SqlAlchemyNoteRepository.get_notes`) -/

/-- Model of `SqlAlchemyNoteRepository.get_notes`: select rows of `user_id`, add
the exclusive keyset predicate when the cursor is supplied (Python
truthiness: a `None` component or an empty `cursor_id` string disables
the predicate), order by `(created_at desc, id desc)`, take `limit`. -/
def get_notes (store : List NoteRow) (user_id : Str) (limit : Nat)
    (cursor_created_at : Option Nat) (cursor_id : Option Str) : List NoteRow :=
  let rows := store.filter (fun n => n.user_id == user_id)
  let rows :=
    match cursor_created_at, cursor_id with
    | some ca, some ci =>
      if ci.isEmpty then rows
      else rows.filter (fun n => decide (KeyLt n.key (ca, ci)))
    | _, _ => rows
  (sortBy noteOrd rows).take limit

/-- The cursor pair published by `NoteService.get_notes` for a page:
`(last_note.created_at, last_note.id)` of the last returned row
(serialised there as `f"{created_at.isoformat()}_{id}"`). -/
def next_cursor_pair (page : List NoteRow) : Option (Nat × Str) :=
  page.getLast?.map (fun last => (last.created_at, last.id))

/-- Driving `NoteService.get_notes` to exhaustion: fetch a page, feed the
cursor of its last row back, stop on an empty page.  `fuel` bounds the
number of fetches (the loop is the caller's; the repository itself is
loop-free). -/
def notePages (store : List NoteRow) (user_id : Str) (limit : Nat) :
    Nat → Option (Nat × Str) → List (List NoteRow)
  | 0, _ => []
  | fuel + 1, cursor =>
    let page := get_notes store user_id limit (cursor.map Prod.fst)
      (cursor.map Prod.snd)
    match next_cursor_pair page with
    | none => []
    | some c => page :: notePages store user_id limit fuel (some c)

/-- The rows of one owner, the first `WHERE` stage of `get_notes`. -/
def ownerRows (store : List NoteRow) (user_id : Str) : List NoteRow :=
  store.filter (fun n => n.user_id == user_id)

/-- The full sorted listing of an owner, of which every page is a
cursor-delimited segment. -/
def sortedOwner (store : List NoteRow) (user_id : Str) : List NoteRow :=
  sortBy noteOrd (ownerRows store user_id)

/-! ## Error taxonomy (src/project/src/shared/exceptions.py and Python
builtins).  Message payloads carry no behaviour and are dropped. -/

/-- The exception kinds raised by the embedded code: the domain exception
classes of `shared/exceptions.py`, the Python builtins `ValueError` and
`IndexError` that the code lets escape, and the raw storage exception
`sqlalchemy.exc.IntegrityError`, which escapes untranslated where no
live handler covers it. -/
inductive AppError where
  | validationException
  | notFoundException
  | unauthorizedException
  | forbiddenException
  | conflictException
  | databaseException
  | pythonValueError
  | pythonIndexError
  | integrityError
deriving DecidableEq, Repr

/-! ## Tags and the note aggregate
(src/project/src/note/domains.py, entities.py) -/

/-- A row of the `tag` table (`entities.Tag`).  Note: the source declares
no `unique=True` on `name`. -/
structure TagRow where
  id : Str
  name : Str
  created_at : Nat
  updated_at : Nat
deriving DecidableEq, Repr

/-- The domain `Tag` dataclass (`domains.py`). -/
structure Tag where
  id : Str
  name : Str
  created_at : Nat
  updated_at : Nat
deriving DecidableEq, Repr

/-- The domain `Note` dataclass (`domains.py`). -/
structure Note where
  id : Str
  user_id : Str
  title : Str
  content : Str
  memo_date : Str
  tags : List Tag
  created_at : Nat
  updated_at : Nat
deriving DecidableEq, Repr

/-- The notes side of the database: `note`, `tag` and the `note_tag`
association table (`entities.py`).  `note_tag` rows are
`(note_id, tag_id)` pairs. -/
structure NoteStore where
  notes : List NoteRow
  tags : List TagRow
  note_tag : List (Str × Str)
deriving DecidableEq, Repr

/-- The dict `{t.name: t for t in result}` built by
`SqlAlchemyNoteRepository.save` from the one batch query
`select(TagModel).where(TagModel.name.in_(tag_names))`, looked up at
`nm`.  A later duplicate row overwrites an earlier one in a Python dict
comprehension, hence `getLast?`. -/
def tagLookup (tableTags : List TagRow) (tag_names : List Str) (nm : Str) :
    Option TagRow :=
  ((tableTags.filter (fun t => tag_names.contains t.name)).filter
    (fun t => t.name == nm)).getLast?

/-- The tag-resolution loop of `SqlAlchemyNoteRepository.save` (lines
97-107): for each domain tag, reuse the row found in the prebuilt dict,
otherwise create a row.  Returns `(tag_models, created rows)` in loop
order.  The dict is built once before the loop and never extended, so a
name occurring twice in `tags` and absent from the table creates two
rows. -/
def resolveTags (tableTags : List TagRow) (tag_names : List Str) :
    List Tag → List TagRow × List TagRow
  | [] => ([], [])
  | tag :: rest =>
    let r := resolveTags tableTags tag_names rest
    match tagLookup tableTags tag_names tag.name with
    | some t => (t :: r.1, r.2)
    | none =>
      let row : TagRow := ⟨tag.id, tag.name, tag.created_at, tag.updated_at⟩
      (row :: r.1, row :: r.2)

/-- Model of `SqlAlchemyNoteRepository.save`: upsert the note row by
`(id, user_id)`, resolve the tag names against the `tag` table in one
batch, then assign the note's association rows to exactly the resolved
models (`note_model.tags = tag_models`).  The transaction outcome is the
Unit of Work's business; this function is the net effect of the session
operations on commit. -/
def note_save (st : NoteStore) (user_id : Str) (note : Note) : NoteStore :=
  let found := st.notes.find? (fun m => m.id == note.id && m.user_id == user_id)
  let notes :=
    match found with
    | none => st.notes ++
        [⟨note.id, note.user_id, note.title, note.content, note.memo_date,
          note.created_at, note.updated_at⟩]
    | some _ => st.notes.map (fun m =>
        if m.id == note.id && m.user_id == user_id then
          { m with
              title := note.title
              content := note.content
              memo_date := note.memo_date
              updated_at := note.updated_at }
        else m)
  let resolved :=
    if note.tags.isEmpty then ([], [])
    else resolveTags st.tags (note.tags.map Tag.name) note.tags
  { notes := notes,
    tags := st.tags ++ resolved.2,
    note_tag := st.note_tag.filter (fun p => !(p.1 == note.id)) ++
      resolved.1.map (fun t => (note.id, t.id)) }

/-- Model of `SqlAlchemyNoteRepository.save` under the storage fault the spec
postulates for racing tag creation: `conflict` injects a
uniqueness-constraint failure at the tag lookup-or-create step (a
concurrent transaction creating the same name first).  The pair's second
component counts the lookup-or-create passes executed.  The source runs
the step once, inside no loop and no try/except, so the count is `1` and
a fault surfaces directly (indeed `entities.py` declares no unique
constraint on `tag.name` at all, so the code itself could never raise
this conflict). -/
def note_save_with_tag_conflict (conflict : Bool) (st : NoteStore)
    (user_id : Str) (note : Note) : Except AppError NoteStore × Nat :=
  if conflict then (.error .conflictException, 1)
  else (.ok (note_save st user_id note), 1)

/-- Row count of a tag name in the `tag` table. -/
def tagNameCount (tableTags : List TagRow) (nm : Str) : Nat :=
  (tableTags.filter (fun t => t.name == nm)).length

/-! ## Unit of Work
(src/project/src/infrastructure/unit_of_work.py; the `src/app` variant has
the same `__aexit__` body) -/

/-- Exceptions flowing through a Unit-of-Work scope: the body's own
exception and the storage errors a commit or rollback call can raise. -/
inductive PyExc where
  | bodyError
  | commitError
  | rollbackError
deriving DecidableEq, Repr

/-- The state the session holds for one Unit-of-Work scope: effects made
durable by a commit, effects still buffered in the open transaction, and
how many times the underlying connection was given back to the pool.
`α` is the type of buffered effects. -/
structure TxSession (α : Type) where
  durable : List α
  pending : List α
  txOpen : Bool
  releases : Nat
deriving DecidableEq, Repr

/-- Model of `session.commit()`: on success the buffered effects become durable
atomically; a failing COMMIT applies nothing and raises. `ok` injects
the storage outcome. -/
def TxSession.commitOp (s : TxSession α) (ok : Bool) :
    TxSession α × Option PyExc :=
  if ok then
    ({ s with
        durable := s.durable ++ s.pending
        pending := []
        txOpen := false }, none)
  else (s, some .commitError)

/-- Model of `session.rollback()`: on success the buffered effects are discarded;
`ok` injects the storage outcome of the ROLLBACK itself. -/
def TxSession.rollbackOp (s : TxSession α) (ok : Bool) :
    TxSession α × Option PyExc :=
  if ok then ({ s with pending := [], txOpen := false }, none)
  else (s, some .rollbackError)

/-- Model of `session.close()`: releases the connection; per SQLAlchemy semantics
a still-open transaction is discarded (rolled back) in the process, and
`close` itself does not raise. -/
def TxSession.closeOp (s : TxSession α) : TxSession α :=
  { s with pending := [], txOpen := false, releases := s.releases + 1 }

/-- Model of `SqlAlchemyUnitOfWork.__aexit__` (lines 28-35):
`try: rollback if exc_type else commit; finally: close`.  Returns the
session state after exit and the exception that propagates out of the
scope: `__aexit__` returns `None`, so a body exception propagates unless
the rollback/commit call raised, in which case that error replaces it. -/
def uow_aexit (exc_type : Option PyExc) (commitOk rollbackOk : Bool)
    (s : TxSession α) : TxSession α × Option PyExc :=
  let step :=
    match exc_type with
    | some _ => s.rollbackOp rollbackOk
    | none => s.commitOp commitOk
  (step.1.closeOp,
    match step.2 with
    | some e => some e
    | none => exc_type)

/-! ## User repository and service
(src/project/src/user/repository.py, service.py) -/

/-- A row of the `User` table (`user/entities.py`); `email` carries
`unique=True`. -/
structure UserRow where
  id : Str
  name : Str
  email : Str
  password : Str
  memo : Option Str
  role : Str
  created_at : Nat
  updated_at : Nat
deriving DecidableEq, Repr

/-- Model of `SqlAlchemyUserRepository.save`: build the row and
`session.add` it.  The `self.session.flush()` on line 31 is NOT awaited
(the coroutine it returns is discarded), so no SQL runs inside the
`try`, nothing there can raise, and the `except IntegrityError`
translation of lines 34-43 is dead code: `save` always returns,
leaving the row as a pending insert of the session.  The `email`
unique constraint is therefore checked only when the Unit of Work
commits (`user_insert_commit` below). -/
def user_repo_save (table : List UserRow) (u : UserRow) : List UserRow :=
  table ++ [u]

/-- Model of the Unit-of-Work commit of a session holding the pending
insert made by `user_repo_save` against the durable table: the database
enforces the `email` unique constraint now, and a violation raises the
raw `IntegrityError` — the repository's dead handler is not on this
path, so nothing translates it into the domain Conflict. -/
def user_insert_commit (table : List UserRow) (u : UserRow) :
    Except AppError (List UserRow) :=
  if table.any (fun r => r.email == u.email) then .error .integrityError
  else .ok (table ++ [u])

/-- Model of `SqlAlchemyUserRepository.find_by_email` (`scalar_one_or_none`; the
unique constraint keeps matches to at most one row). -/
def find_by_email (table : List UserRow) (email : Str) : Option UserRow :=
  table.find? (fun r => r.email == email)

/-- Model of `UserService.create_user`: look the email up first and raise
`ConflictException` if a user exists, otherwise build the user (the
password arrives already hashed by `hasher.encrypt`), `save` it
(a pending insert — see `user_repo_save`), and let the Unit of Work
commit it.  Returns the durable user table after the Unit of Work
settles (an exception rolls the transaction back, leaving the table
unchanged) together with the outcome. -/
def create_user (table : List UserRow) (id name email password_hash : Str)
    (memo : Option Str) (role : Str) (now : Nat) :
    List UserRow × Except AppError UserRow :=
  match find_by_email table email with
  | some _ => (table, .error .conflictException)
  | none =>
    let u : UserRow := ⟨id, name, email, password_hash, memo, role, now, now⟩
    match user_insert_commit table u with
    | .error e => (table, .error e)
    | .ok table2 => (table2, .ok u)

/-! ## JWT provider (src/project/src/infrastructure/jwt_provider.py) -/

/-- The claims dict carried by a token.  `create_access_token` always
sets `exp` and `role`; a foreign token may lack any of them. -/
structure JwtClaims where
  sub : Option Str
  email : Option Str
  role : Option Str
  exp : Option Int
deriving DecidableEq, Repr

/-- A signed token: its claims plus the secret it was signed with.
`jwt.decode` accepts the token exactly when the verifying secret equals
the signing secret; a forged or tampered token is one whose
`signedWith` differs from the provider's key. -/
structure JwtToken where
  claims : JwtClaims
  signedWith : Str
deriving DecidableEq, Repr

/-- Model of `CurrentUser` (jwt_provider.py, lines 13-16). -/
structure CurrentUser where
  id : Str
  role : Str
deriving DecidableEq, Repr

/-- Constructor arguments of `JwtProvider`. -/
structure JwtProvider where
  secret_key : Str
  access_token_expire_minutes : Int
deriving DecidableEq, Repr

/-- Model of `JwtProvider.create_access_token`: copy `data`, set
`exp = int((now + (expires_delta or default)).timestamp())` and `role`,
sign with the provider's secret.  `expires_delta` is in seconds; Python
truthiness makes a zero timedelta fall back to the default. -/
def create_access_token (p : JwtProvider) (data : JwtClaims) (role : Str)
    (expires_delta : Option Int) (now : Int) : JwtToken :=
  let delta :=
    match expires_delta with
    | some d => if d = 0 then p.access_token_expire_minutes * 60 else d
    | none => p.access_token_expire_minutes * 60
  ⟨{ data with role := some role, exp := some (now + delta) }, p.secret_key⟩

/-- Model of `JwtProvider.decode_access_token`: `jwt.decode` verifies the
signature (raising `InvalidTokenError` otherwise) and then the `exp`
claim (raising `ExpiredSignatureError` when it lies in the past); the
two `except` clauses turn both into `UnauthorizedException`. -/
def decode_access_token (p : JwtProvider) (now : Int) (t : JwtToken) :
    Except AppError JwtClaims :=
  if t.signedWith ≠ p.secret_key then .error .unauthorizedException
  else
    match t.claims.exp with
    | some e => if e < now then .error .unauthorizedException else .ok t.claims
    | none => .ok t.claims

/-- Python truthiness of an optional string claim value
(`payload.get(...)`): present and non-empty. -/
def truthyStr : Option Str → Bool
  | some s => !s.isEmpty
  | none => false

/-- Model of `JwtProvider.get_current_user`: decode, then
`if not user_id or not role: raise ForbiddenException`. -/
def get_current_user (p : JwtProvider) (now : Int) (t : JwtToken) :
    Except AppError CurrentUser :=
  match decode_access_token p now t with
  | .error e => .error e
  | .ok payload =>
    if truthyStr payload.sub && truthyStr payload.role then
      .ok ⟨payload.sub.getD [], payload.role.getD []⟩
    else .error .forbiddenException

/-- The constant user id returned by the admin path. -/
def ADMIN_USER_ID : Str := ['A', 'D', 'M', 'I', 'N', '_', 'U', 'S', 'E', 'R', '_', 'I', 'D']

/-- The admin role string. -/
def adminRole : Str := ['a', 'd', 'm', 'i', 'n']

/-- Model of `JwtProvider.get_admin_user`: decode, read only the `role` claim,
`if not role or role != "admin": raise ForbiddenException`, and return
`CurrentUser("ADMIN_USER_ID", role)` — the `sub` claim is never read. -/
def get_admin_user (p : JwtProvider) (now : Int) (t : JwtToken) :
    Except AppError CurrentUser :=
  match decode_access_token p now t with
  | .error e => .error e
  | .ok payload =>
    if !truthyStr payload.role || !(payload.role == some adminRole) then
      .error .forbiddenException
    else .ok ⟨ADMIN_USER_ID, payload.role.getD []⟩

/-! ## Note settings and domain invariant methods
(src/project/src/note/settings.py, domains.py) -/

/-- Model of `NoteSettings.TITLE_MAX_LENGTH` default. -/
def TITLE_MAX_LENGTH : Nat := 64

/-- Model of `NoteSettings.CONTENT_MIN_LENGTH` default. -/
def CONTENT_MIN_LENGTH : Nat := 1

/-- Model of `NoteSettings.MEMO_DATE_LENGTH` default. -/
def MEMO_DATE_LENGTH : Nat := 8

/-- Model of `NoteSettings.TAG_NAME_MAX_LENGTH` default. -/
def TAG_NAME_MAX_LENGTH : Nat := 32

/-- Model of `NoteSettings.MAX_TAGS_PER_NOTE` default. -/
def MAX_TAGS_PER_NOTE : Nat := 10

/-- The `Tag` dataclass constructor with its `__post_init__` length
check. -/
def mkTag (id name : Str) (created_at updated_at : Nat) :
    Except AppError Tag :=
  if TAG_NAME_MAX_LENGTH < name.length then .error .pythonValueError
  else .ok ⟨id, name, created_at, updated_at⟩

/-- Model of `Note.change_title`: empty and length checks, then assign and bump
`updated_at` (`now` stands for `datetime.now(...)`). -/
def change_title (note : Note) (new_title : Str) (now : Nat) :
    Except AppError Note :=
  if new_title.isEmpty then .error .pythonValueError
  else if TITLE_MAX_LENGTH < new_title.length then .error .pythonValueError
  else .ok { note with title := new_title, updated_at := now }

/-- Model of `Note.change_content`. -/
def change_content (note : Note) (new_content : Str) (now : Nat) :
    Except AppError Note :=
  if new_content.isEmpty then .error .pythonValueError
  else if new_content.length < CONTENT_MIN_LENGTH then .error .pythonValueError
  else .ok { note with content := new_content, updated_at := now }

/-- Model of `Note.change_memo_date`. -/
def change_memo_date (note : Note) (new_memo_date : Str) (now : Nat) :
    Except AppError Note :=
  if new_memo_date.isEmpty then .error .pythonValueError
  else if new_memo_date.length ≠ MEMO_DATE_LENGTH then .error .pythonValueError
  else .ok { note with memo_date := new_memo_date, updated_at := now }

/-- Model of `Note.change_tags`. -/
def change_tags (note : Note) (new_tags : List Tag) (now : Nat) :
    Except AppError Note :=
  if MAX_TAGS_PER_NOTE < new_tags.length then .error .pythonValueError
  else .ok { note with tags := new_tags, updated_at := now }

/-! ## Note service (src/project/src/note/service.py) -/

/-- Model of `CreateNoteCommand` (note/cqrs/commands.py). -/
structure CreateNoteCommand where
  user_id : Str
  title : Str
  content : Str
  memo_date : Str
  tag_names : Option (List Str)
deriving DecidableEq, Repr

/-- Model of `UpdateNoteCommand` (note/cqrs/commands.py). -/
structure UpdateNoteCommand where
  user_id : Str
  id : Str
  title : Option Str
  content : Option Str
  memo_date : Option Str
  tag_names : Option (List Str)
deriving DecidableEq, Repr

/-- The `Tag(...)` list comprehension of the service: one fresh uuid per
name (`ids` supplies the generated uuids). -/
def buildTags (names ids : List Str) (now : Nat) :
    Except AppError (List Tag) :=
  match names, ids with
  | [], _ => .ok []
  | nm :: restNames, i :: restIds => do
    let t ← mkTag i nm now now
    let ts ← buildTags restNames restIds now
    .ok (t :: ts)
  | _ :: _, [] => .error .pythonValueError

/-- Model of `NoteService.create_note`: check only the tag count (Python
truthiness: `if cmd.tag_names and len(...) > MAX`), build the domain
tags and the note directly from the command fields — no title, content
or memo_date validation on this path — and save it.  `note_id` and
`tag_ids` stand for the generated `uuid4` strings, `now` for
`datetime.now`.  Returns the store after the Unit of Work settles and
the outcome. -/
def create_note (cmd : CreateNoteCommand) (now : Nat) (note_id : Str)
    (tag_ids : List Str) (st : NoteStore) :
    NoteStore × Except AppError Note :=
  let tooMany :=
    match cmd.tag_names with
    | some l => !l.isEmpty && decide (MAX_TAGS_PER_NOTE < l.length)
    | none => false
  if tooMany then (st, .error .pythonValueError)
  else
    match buildTags (cmd.tag_names.getD []) tag_ids now with
    | .error e => (st, .error e)
    | .ok tags =>
      let note : Note := ⟨note_id, cmd.user_id, cmd.title, cmd.content,
        cmd.memo_date, tags, now, now⟩
      (note_save st cmd.user_id note, .ok note)

/-- The domain tags associated to a note id in the store (used to load a
row back into a domain `Note`, `repository.to_domain`). -/
def NoteStore.tags_of (st : NoteStore) (note_id : Str) : List Tag :=
  (st.note_tag.filter (fun p => p.1 == note_id)).filterMap
    (fun p => (st.tags.find? (fun t => t.id == p.2)).map
      (fun t => ⟨t.id, t.name, t.created_at, t.updated_at⟩))

/-- Model of `SqlAlchemyNoteRepository.find_by_id` followed by `to_domain`. -/
def find_by_id (st : NoteStore) (user_id id : Str) : Option Note :=
  (st.notes.find? (fun m => m.user_id == user_id && m.id == id)).map
    (fun m => ⟨m.id, m.user_id, m.title, m.content, m.memo_date,
      st.tags_of m.id, m.created_at, m.updated_at⟩)

/-- Model of `NoteService.update_note`: load the note (NotFound if absent), apply
`change_*` to each supplied field — these do validate — rebuild the tag
list when `tag_names is not None` (after the service-level count check),
bump `updated_at`, and save. -/
def update_note (cmd : UpdateNoteCommand) (now : Nat) (tag_ids : List Str)
    (st : NoteStore) : NoteStore × Except AppError Note :=
  match find_by_id st cmd.user_id cmd.id with
  | none => (st, .error .notFoundException)
  | some note0 =>
    let result : Except AppError Note := do
      let n1 ← match cmd.title with
        | some t => change_title note0 t now
        | none => .ok note0
      let n2 ← match cmd.content with
        | some c => change_content n1 c now
        | none => .ok n1
      let n3 ← match cmd.memo_date with
        | some d => change_memo_date n2 d now
        | none => .ok n2
      let n4 ← match cmd.tag_names with
        | some names =>
          if MAX_TAGS_PER_NOTE < names.length then .error .pythonValueError
          else do
            let tags ← buildTags names tag_ids now
            change_tags n3 tags now
        | none => .ok n3
      .ok { n4 with updated_at := now }
    match result with
    | .error e => (st, .error e)
    | .ok n => (note_save st cmd.user_id n, .ok n)

/-! ## Cursor codec (src/utils/pagination.py and the
`f"{created_at.isoformat()}_{id}"` producer in the services) -/

/-- A Python `datetime` as the cursor codec sees it: calendar fields.
(The services store naive UTC datetimes.) -/
structure PyDateTime where
  year : Nat
  month : Nat
  day : Nat
  hour : Nat
  minute : Nat
  second : Nat
  microsecond : Nat
deriving DecidableEq, Repr

/-- The invariants Python's `datetime` constructor enforces on its
fields (day-in-month precision is irrelevant here). -/
def PyDateTime.Valid (d : PyDateTime) : Prop :=
  1 ≤ d.year ∧ d.year ≤ 9999 ∧ 1 ≤ d.month ∧ d.month ≤ 12 ∧
  1 ≤ d.day ∧ d.day ≤ 31 ∧ d.hour ≤ 23 ∧ d.minute ≤ 59 ∧
  d.second ≤ 59 ∧ d.microsecond ≤ 999999

instance (d : PyDateTime) : Decidable d.Valid := by
  unfold PyDateTime.Valid; infer_instance

/-- The character of a decimal digit. -/
def digitChar (n : Nat) : Char := Char.ofNat (48 + n)

/-- The value of a decimal digit character. -/
def digitVal (c : Char) : Nat := c.toNat - 48

/-- Decimal digit test. -/
def isDigitChar (c : Char) : Bool :=
  decide (48 ≤ c.toNat) && decide (c.toNat ≤ 57)

/-- Two-digit zero-padded decimal rendering. -/
def pad2 (n : Nat) : Str := [digitChar (n / 10), digitChar (n % 10)]

/-- Four-digit zero-padded decimal rendering. -/
def pad4 (n : Nat) : Str := pad2 (n / 100) ++ pad2 (n % 100)

/-- Six-digit zero-padded decimal rendering. -/
def pad6 (n : Nat) : Str := pad2 (n / 10000) ++ pad2 (n / 100 % 100) ++ pad2 (n % 100)

/-- Model of `datetime.isoformat()`: `YYYY-MM-DDTHH:MM:SS`, with `.ffffff`
appended exactly when `microsecond` is nonzero. -/
def isoformat (d : PyDateTime) : Str :=
  pad4 d.year ++ '-' :: pad2 d.month ++ '-' :: pad2 d.day ++
  'T' :: pad2 d.hour ++ ':' :: pad2 d.minute ++ ':' :: pad2 d.second ++
  (if d.microsecond == 0 then [] else '.' :: pad6 d.microsecond)

/-- Read two digits off the front of a string. -/
def read2 : Str → Option (Nat × Str)
  | a :: b :: rest =>
    if isDigitChar a && isDigitChar b then
      some (10 * digitVal a + digitVal b, rest)
    else none
  | _ => none

/-- Read four digits off the front of a string. -/
def read4 (s : Str) : Option (Nat × Str) :=
  match read2 s with
  | none => none
  | some (hi, s1) =>
    match read2 s1 with
    | none => none
    | some (lo, s2) => some (100 * hi + lo, s2)

/-- Read six digits off the front of a string. -/
def read6 (s : Str) : Option (Nat × Str) :=
  match read2 s with
  | none => none
  | some (a, s1) =>
    match read2 s1 with
    | none => none
    | some (b, s2) =>
      match read2 s2 with
      | none => none
      | some (c, s3) => some (10000 * a + 100 * b + c, s3)

/-- Expect one specific character at the front of a string. -/
def expectCh (c : Char) : Str → Option Str
  | x :: rest => if x == c then some rest else none
  | [] => none

/-- The optional fractional-seconds tail: absent, or a dot followed by
six digits. -/
def readFrac : Str → Option (Nat × Str)
  | [] => some (0, ([] : Str))
  | c :: rest => if c == '.' then read6 rest else none

/-- Model of `datetime.fromisoformat`, modelled on the canonical output format of
`datetime.isoformat()` (`YYYY-MM-DDTHH:MM:SS` with an optional
`.ffffff`): parse the fields, validate their ranges, and require the
whole string to be consumed; everything else raises `ValueError`.  (The
library accepts some further spellings — separate date, space separator,
offsets — that no cursor produced by this system uses.) -/
def parseIso (s : Str) : Option PyDateTime :=
  match read4 s with
  | none => none
  | some (y, s1) =>
  match expectCh '-' s1 with
  | none => none
  | some s2 =>
  match read2 s2 with
  | none => none
  | some (mo, s3) =>
  match expectCh '-' s3 with
  | none => none
  | some s4 =>
  match read2 s4 with
  | none => none
  | some (dy, s5) =>
  match expectCh 'T' s5 with
  | none => none
  | some s6 =>
  match read2 s6 with
  | none => none
  | some (hr, s7) =>
  match expectCh ':' s7 with
  | none => none
  | some s8 =>
  match read2 s8 with
  | none => none
  | some (mi, s9) =>
  match expectCh ':' s9 with
  | none => none
  | some s10 =>
  match read2 s10 with
  | none => none
  | some (sec, s11) =>
  match readFrac s11 with
  | none => none
  | some (us, s12) =>
    let d : PyDateTime := ⟨y, mo, dy, hr, mi, sec, us⟩
    if s12.isEmpty && decide d.Valid then some d else none

/-- Model of `datetime.fromisoformat` with Python's error behaviour. -/
def fromisoformat (s : Str) : Except AppError PyDateTime :=
  match parseIso s with
  | some d => .ok d
  | none => .error .pythonValueError

/-- Python's `str.split(sep)`: split on every occurrence; never returns
an empty list (`"".split(sep) == [""]`). -/
def pysplit (sep : Char) : Str → List Str
  | [] => [[]]
  | c :: cs =>
    if c == sep then [] :: pysplit sep cs
    else
      match pysplit sep cs with
      | [] => [[c]]
      | p :: ps => (c :: p) :: ps

/-- Model of `parse_cursor` (src/utils/pagination.py): an empty (or `None`)
cursor yields `(None, None)`; otherwise split on `_`, parse `parts[0]`
as a datetime (`ValueError` on failure) and take `parts[1]` as the id
(`IndexError` when there is no underscore at all). -/
def parse_cursor (cursor : Str) :
    Except AppError (Option PyDateTime × Option Str) :=
  if cursor.isEmpty then .ok (none, none)
  else
    let parts := pysplit '_' cursor
    match fromisoformat (parts.headD []) with
    | .error e => .error e
    | .ok ts =>
      match parts[1]? with
      | none => .error .pythonIndexError
      | some cid => .ok (some ts, some cid)

/-- The cursor string the services publish for a page's last row:
`f"{last.created_at.isoformat()}_{last.id}"`. -/
def encode_cursor (created_at : PyDateTime) (id : Str) : Str :=
  isoformat created_at ++ '_' :: id

/-! ## Properties -/

theorem keyLt_trans {a b c : Nat × Str} (h1 : KeyLt a b) (h2 : KeyLt b c) :
    KeyLt a c := by
  rcases h1 with h1 | ⟨e1, l1⟩ <;> rcases h2 with h2 | ⟨e2, l2⟩
  · exact Or.inl (lt_trans h1 h2)
  · exact Or.inl (e2 ▸ h1)
  · exact Or.inl (e1 ▸ h2)
  · exact Or.inr ⟨e1.trans e2, lt_trans l1 l2⟩

theorem keyLt_asymm {a b : Nat × Str} (h1 : KeyLt a b) (h2 : KeyLt b a) :
    False := by
  rcases h1 with h1 | ⟨e1, l1⟩ <;> rcases h2 with h2 | ⟨e2, l2⟩
  · exact absurd h2 (Nat.lt_asymm h1)
  · exact absurd h1 (e2 ▸ lt_irrefl _)
  · exact absurd h2 (e1 ▸ lt_irrefl _)
  · exact absurd l2 (lt_asymm l1)

theorem keyLt_trichotomy (a b : Nat × Str) :
    KeyLt a b ∨ a = b ∨ KeyLt b a := by
  rcases Nat.lt_trichotomy a.1 b.1 with h | h | h
  · exact Or.inl (Or.inl h)
  · rcases lt_trichotomy a.2 b.2 with h2 | h2 | h2
    · exact Or.inl (Or.inr ⟨h, h2⟩)
    · exact Or.inr (Or.inl (Prod.ext h h2))
    · exact Or.inr (Or.inr (Or.inr ⟨h.symm, h2⟩))
  · exact Or.inr (Or.inr (Or.inl h))

theorem insertSorted_perm (r : α → α → Bool) (x : α) (l : List α) :
    List.Perm (insertSorted r x l) (x :: l) := by
  induction l with
  | nil => simp [insertSorted]
  | cons y ys ih =>
    simp only [insertSorted]
    split
    · exact List.Perm.refl _
    · exact List.Perm.trans (List.Perm.cons y ih) (List.Perm.swap x y ys)

theorem sortBy_perm (r : α → α → Bool) (l : List α) :
    List.Perm (sortBy r l) l := by
  induction l with
  | nil => simp [sortBy]
  | cons x xs ih =>
    exact List.Perm.trans (insertSorted_perm r x (sortBy r xs))
      (List.Perm.cons x ih)

theorem insertSorted_pairwise (r : α → α → Bool)
    (htot : ∀ a b, r a b = true ∨ r b a = true)
    (htrans : ∀ a b c, r a b = true → r b c = true → r a c = true)
    (x : α) (l : List α) (hl : l.Pairwise (fun a b => r a b = true)) :
    (insertSorted r x l).Pairwise (fun a b => r a b = true) := by
  induction l with
  | nil => simp [insertSorted]
  | cons y ys ih =>
    rcases hl with _ | ⟨hy, hys⟩
    simp only [insertSorted]
    split
    · next hxy =>
      refine List.Pairwise.cons ?_ (List.Pairwise.cons hy hys)
      intro z hz
      rcases List.mem_cons.mp hz with rfl | hz'
      · exact hxy
      · exact htrans x y z hxy (hy z hz')
    · next hxy =>
      refine List.Pairwise.cons ?_ (ih hys)
      intro z hz
      have hz' := (insertSorted_perm r x ys).mem_iff.mp hz
      rcases List.mem_cons.mp hz' with rfl | hz'
      · rcases htot y z with h | h
        · exact h
        · exact absurd h (by simpa using hxy)
      · exact hy z hz'

theorem sortBy_pairwise (r : α → α → Bool)
    (htot : ∀ a b, r a b = true ∨ r b a = true)
    (htrans : ∀ a b c, r a b = true → r b c = true → r a c = true)
    (l : List α) :
    (sortBy r l).Pairwise (fun a b => r a b = true) := by
  induction l with
  | nil => simp [sortBy]
  | cons x xs ih => exact insertSorted_pairwise r htot htrans x _ ih

theorem noteOrd_total (a b : NoteRow) : noteOrd a b = true ∨ noteOrd b a = true := by
  simp only [noteOrd, Bool.not_eq_true', decide_eq_false_iff_not]
  rcases keyLt_trichotomy a.key b.key with h | h | h
  · exact Or.inr (fun hc => keyLt_asymm h hc)
  · exact Or.inl (fun hc => keyLt_asymm (h ▸ hc) (h ▸ hc))
  · exact Or.inl (fun hc => keyLt_asymm hc h)

theorem noteOrd_trans (a b c : NoteRow) (h1 : noteOrd a b = true)
    (h2 : noteOrd b c = true) : noteOrd a c = true := by
  simp only [noteOrd, Bool.not_eq_true', decide_eq_false_iff_not] at *
  intro hca
  rcases keyLt_trichotomy a.key b.key with h | h | h
  · exact h1 h
  · exact h2 (h ▸ hca)
  · exact h2 (keyLt_trans h hca)

theorem key_nodup_of_id_nodup {l : List NoteRow}
    (h : (l.map NoteRow.id).Nodup) : (l.map NoteRow.key).Nodup := by
  have he : l.map NoteRow.id = (l.map NoteRow.key).map Prod.snd := by
    rw [List.map_map]; rfl
  rw [he] at h
  exact List.Nodup.of_map _ h

theorem pairwise_noteGt_of_ord {l : List NoteRow}
    (hs : l.Pairwise (fun a b => noteOrd a b = true))
    (h : (l.map NoteRow.id).Nodup) : l.Pairwise NoteGt := by
  have hk : l.Pairwise (fun a b => a.key ≠ b.key) :=
    List.pairwise_map.mp (key_nodup_of_id_nodup h)
  refine (hs.and hk).imp ?_
  rintro a b ⟨hab, hne⟩
  have h1 : ¬ KeyLt a.key b.key := by
    simpa [noteOrd] using hab
  rcases keyLt_trichotomy a.key b.key with hlt | heq | hgt
  · exact absurd hlt h1
  · exact absurd heq hne
  · exact hgt

theorem filter_id_nodup {l : List NoteRow} (p : NoteRow → Bool)
    (h : (l.map NoteRow.id).Nodup) : ((l.filter p).map NoteRow.id).Nodup :=
  h.sublist ((List.filter_sublist l).map NoteRow.id)

theorem sortBy_id_nodup {l : List NoteRow}
    (h : (l.map NoteRow.id).Nodup) :
    ((sortBy noteOrd l).map NoteRow.id).Nodup :=
  (((sortBy_perm noteOrd l).symm).map NoteRow.id).nodup h

theorem sortedOwner_id_nodup {store : List NoteRow} {uid : Str}
    (h : (store.map NoteRow.id).Nodup) :
    ((sortedOwner store uid).map NoteRow.id).Nodup :=
  sortBy_id_nodup (filter_id_nodup _ h)

theorem sortedOwner_pairwise {store : List NoteRow} {uid : Str}
    (h : (store.map NoteRow.id).Nodup) :
    (sortedOwner store uid).Pairwise NoteGt :=
  pairwise_noteGt_of_ord
    (sortBy_pairwise noteOrd noteOrd_total noteOrd_trans _)
    (sortedOwner_id_nodup h)

theorem sortBy_filter_comm {l : List NoteRow} (p : NoteRow → Bool)
    (h : (l.map NoteRow.id).Nodup) :
    sortBy noteOrd (l.filter p) = (sortBy noteOrd l).filter p := by
  have hperm : (sortBy noteOrd (l.filter p)).Perm ((sortBy noteOrd l).filter p) :=
    (sortBy_perm _ _).trans (((sortBy_perm noteOrd l).symm).filter p)
  have hs1 : (sortBy noteOrd (l.filter p)).Pairwise NoteGt :=
    pairwise_noteGt_of_ord
      (sortBy_pairwise noteOrd noteOrd_total noteOrd_trans _)
      (sortBy_id_nodup (filter_id_nodup p h))
  have hs2 : ((sortBy noteOrd l).filter p).Pairwise NoteGt :=
    (pairwise_noteGt_of_ord
      (sortBy_pairwise noteOrd noteOrd_total noteOrd_trans _)
      (sortBy_id_nodup h)).sublist (List.filter_sublist _)
  exact List.eq_of_perm_of_sorted hperm hs1 hs2

theorem filter_keyLt_append {l1 l2 : List NoteRow} {x : NoteRow}
    (hp : (l1 ++ x :: l2).Pairwise NoteGt) :
    (l1 ++ x :: l2).filter (fun n => decide (KeyLt n.key x.key)) = l2 := by
  induction l1 with
  | nil =>
    simp only [List.nil_append] at hp ⊢
    rcases hp with _ | ⟨hx, hl2⟩
    rw [List.filter_cons]
    have hxx : decide (KeyLt x.key x.key) = false :=
      decide_eq_false (fun h => keyLt_asymm h h)
    simp only [hxx, Bool.false_eq_true, if_false]
    exact List.filter_eq_self.mpr
      (fun a ha => decide_eq_true (hx a ha))
  | cons a l1' ih =>
    rcases hp with _ | ⟨ha, hp'⟩
    have hax : decide (KeyLt a.key x.key) = false := by
      refine decide_eq_false (fun h => keyLt_asymm h ?_)
      exact ha x (List.mem_append_right _ (List.mem_cons_self x l2))
    rw [List.cons_append, List.filter_cons]
    simp only [hax, Bool.false_eq_true, if_false]
    exact ih hp'

theorem get_notes_none_eq (store : List NoteRow) (uid : Str) (limit : Nat) :
    get_notes store uid limit none none = (sortedOwner store uid).take limit := rfl

theorem get_notes_cursor_eq (store : List NoteRow) (uid : Str) (limit : Nat)
    (ca : Nat) (ci : Str) (hci : ci ≠ [])
    (h : (store.map NoteRow.id).Nodup) :
    get_notes store uid limit (some ca) (some ci) =
      ((sortedOwner store uid).filter
        (fun n => decide (KeyLt n.key (ca, ci)))).take limit := by
  have hciB : ci.isEmpty = false := by
    cases ci with
    | nil => exact absurd rfl hci
    | cons c cs => rfl
  unfold get_notes
  simp only [hciB, Bool.false_eq_true, if_false]
  rw [sortBy_filter_comm _ (filter_id_nodup _ h)]
  rfl

theorem notePages_join_eq (store : List NoteRow) (uid : Str) (limit : Nat)
    (hid : (store.map NoteRow.id).Nodup)
    (hne : ∀ n ∈ store, n.id ≠ [])
    (hlim : 0 < limit) :
    ∀ (fuel : Nat) (cursor : Option (Nat × Str)) (done rest : List NoteRow),
      sortedOwner store uid = done ++ rest →
      rest.length < fuel →
      (cursor = none ∧ done = [] ∨
        ∃ c, cursor = some c ∧
          (sortedOwner store uid).filter (fun n => decide (KeyLt n.key c)) = rest ∧
          c.2 ≠ []) →
      (notePages store uid limit fuel cursor).flatten = rest := by
  intro fuel
  induction fuel with
  | zero =>
    intro cursor done rest hsplit hlt hcur
    omega
  | succ fuel ih =>
    intro cursor done rest hsplit hlt hcur
    have hpage : get_notes store uid limit (cursor.map Prod.fst)
        (cursor.map Prod.snd) = rest.take limit := by
      rcases hcur with ⟨rfl, rfl⟩ | ⟨c, rfl, hcf, hc2⟩
      · show get_notes store uid limit none none = rest.take limit
        rw [get_notes_none_eq]
        rw [List.nil_append] at hsplit
        rw [hsplit]
      · show get_notes store uid limit (some c.1) (some c.2) = rest.take limit
        rw [get_notes_cursor_eq store uid limit c.1 c.2 hc2 hid, hcf]
    cases rest with
    | nil =>
      simp [notePages, hpage, next_cursor_pair]
    | cons r rs =>
      have hpne : (r :: rs).take limit ≠ [] := by
        cases limit with
        | zero => omega
        | succ k => simp
      rcases List.eq_nil_or_concat ((r :: rs).take limit) with hnil | ⟨pre, last, hconcat⟩
      · exact absurd hnil hpne
      rw [List.concat_eq_append] at hconcat
      have hrest_decomp : r :: rs = (pre ++ [last]) ++ List.drop limit (r :: rs) := by
        rw [← hconcat]
        exact (List.take_append_drop limit (r :: rs)).symm
      have hnext : next_cursor_pair ((r :: rs).take limit)
          = some (last.created_at, last.id) := by
        unfold next_cursor_pair
        rw [hconcat, List.getLast?_concat]
        rfl
      have hso : sortedOwner store uid =
          (done ++ pre) ++ last :: List.drop limit (r :: rs) := by
        rw [hsplit]
        calc done ++ (r :: rs)
            = done ++ ((pre ++ [last]) ++ List.drop limit (r :: rs)) :=
              congrArg (fun t => done ++ t) hrest_decomp
          _ = (done ++ pre) ++ last :: List.drop limit (r :: rs) := by
              simp [List.append_assoc]
      have hmemlast : last ∈ store := by
        have h1 : last ∈ (r :: rs).take limit := by
          rw [hconcat]
          exact List.mem_append_right pre (List.mem_singleton.mpr rfl)
        have h2 : last ∈ (r :: rs) := List.take_subset limit _ h1
        have h3 : last ∈ sortedOwner store uid := by
          rw [hsplit]; exact List.mem_append_right _ h2
        have h4 : last ∈ ownerRows store uid :=
          (sortBy_perm noteOrd _).mem_iff.mp h3
        exact List.mem_of_mem_filter h4
      have hfilter : (sortedOwner store uid).filter
          (fun n => decide (KeyLt n.key (last.created_at, last.id)))
          = List.drop limit (r :: rs) := by
        have hp := @sortedOwner_pairwise store uid hid
        rw [hso] at hp ⊢
        exact filter_keyLt_append hp
      have hfuel : (List.drop limit (r :: rs)).length < fuel := by
        simp only [List.length_drop, List.length_cons] at *
        omega
      have hrec := ih (some (last.created_at, last.id))
        (done ++ (r :: rs).take limit) (List.drop limit (r :: rs))
        (by
          rw [hsplit, List.append_assoc]
          exact congrArg (fun t => done ++ t)
            (List.take_append_drop limit (r :: rs)).symm)
        hfuel
        (Or.inr ⟨(last.created_at, last.id), rfl, hfilter, hne last hmemlast⟩)
      show (notePages store uid limit (fuel + 1) cursor).flatten = r :: rs
      rw [notePages]
      simp only [hpage, hnext]
      rw [List.flatten_cons, hrec]
      exact (List.take_append_drop limit (r :: rs))

/-! ## Claim theorems -/

/-- C3: for every Unit-of-Work scope exit, the session is released
exactly once on every path; a body exception triggers a rollback and
(when the rollback call itself succeeds) the original exception
propagates with the buffered effects discarded; a normal exit commits
the buffered effects atomically and propagates nothing. -/
theorem uow_scope_exit_semantics (α : Type) (exc : Option PyExc)
    (commitOk rollbackOk : Bool) (s : TxSession α) :
    (uow_aexit exc commitOk rollbackOk s).1.releases = s.releases + 1
    ∧ (∀ e, exc = some e → rollbackOk = true →
        (uow_aexit exc commitOk rollbackOk s).1.durable = s.durable
        ∧ (uow_aexit exc commitOk rollbackOk s).1.pending = []
        ∧ (uow_aexit exc commitOk rollbackOk s).2 = some e)
    ∧ (exc = none → commitOk = true →
        (uow_aexit exc commitOk rollbackOk s).1.durable = s.durable ++ s.pending
        ∧ (uow_aexit exc commitOk rollbackOk s).1.pending = []
        ∧ (uow_aexit exc commitOk rollbackOk s).2 = none) := by
  rcases exc with _ | e <;> cases commitOk <;> cases rollbackOk <;>
    simp [uow_aexit, TxSession.commitOp, TxSession.rollbackOp, TxSession.closeOp]

/-- Witness for C3 at a concrete session: a body error with a working
rollback, and a clean exit with a working commit. -/
theorem uow_scope_exit_semantics_witness :
    (uow_aexit (some .bodyError) true true (⟨[1], [2], true, 0⟩ : TxSession Nat)).1.releases = 1
    ∧ (uow_aexit (some .bodyError) true true (⟨[1], [2], true, 0⟩ : TxSession Nat)).1.durable = [1]
    ∧ (uow_aexit (some .bodyError) true true (⟨[1], [2], true, 0⟩ : TxSession Nat)).2 = some .bodyError
    ∧ (uow_aexit none true true (⟨[1], [2], true, 0⟩ : TxSession Nat)).1.durable = [1, 2]
    ∧ (uow_aexit none true true (⟨[1], [2], true, 0⟩ : TxSession Nat)).2 = none := by
  have h1 := uow_scope_exit_semantics Nat (some .bodyError) true true ⟨[1], [2], true, 0⟩
  have h2 := uow_scope_exit_semantics Nat none true true ⟨[1], [2], true, 0⟩
  refine ⟨h1.1, (h1.2.1 .bodyError rfl rfl).1, (h1.2.1 .bodyError rfl rfl).2.2,
    ?_, (h2.2.2 rfl rfl).2.2⟩
  have := (h2.2.2 rfl rfl).1
  simpa using this

/-- C4: when the commit at scope exit fails with a storage error, no
buffered effect becomes durable and the close in the `finally` block
discards the open transaction (SQLAlchemy rolls back on close), so no
half-committed state remains; the connection is released exactly once
and the commit error propagates.  Also: when the body raised and the
rollback call itself fails, the connection is still released exactly
once. -/
theorem uow_commit_failure_semantics (α : Type) (rollbackOk : Bool)
    (s : TxSession α) :
    (uow_aexit none false rollbackOk s).1.durable = s.durable
    ∧ (uow_aexit none false rollbackOk s).1.pending = []
    ∧ (uow_aexit none false rollbackOk s).1.txOpen = false
    ∧ (uow_aexit none false rollbackOk s).1.releases = s.releases + 1
    ∧ (uow_aexit none false rollbackOk s).2 = some .commitError
    ∧ (uow_aexit (some .bodyError) false false s).1.releases = s.releases + 1 := by
  cases rollbackOk <;>
    simp [uow_aexit, TxSession.commitOp, TxSession.rollbackOp, TxSession.closeOp]

/-- C9 counterexample: when the uniqueness conflict the spec postulates
hits the tag lookup-or-create step, the save executes exactly one pass
(the count `1`, not the `2` a single internal retry would produce) and
surfaces the Conflict directly. -/
theorem tag_conflict_retry_counterexample :
    note_save_with_tag_conflict true ⟨[], [], []⟩ ['u']
        ⟨['n'], ['u'], ['t'], ['c'], ['d'], [], 1, 1⟩
      = (.error .conflictException, 1)
    ∧ (1 : Nat) ≠ 2 := ⟨rfl, by decide⟩

/-- C9 amended: the tag lookup-or-create step of
`SqlAlchemyNoteRepository.save` is never retried: the code performs
exactly one pass (it contains no loop and no exception handler around
the step), and an injected uniqueness Conflict surfaces to the caller
from that first pass. -/
theorem tag_conflict_no_retry (conflict : Bool) (st : NoteStore)
    (uid : Str) (note : Note) :
    (note_save_with_tag_conflict conflict st uid note).2 = 1
    ∧ (conflict = true →
        (note_save_with_tag_conflict conflict st uid note).1
          = .error .conflictException) := by
  cases conflict <;> simp [note_save_with_tag_conflict]

/-- C8: `NoteService.create_note` persists a note whose title is empty —
violating the 1..64-character title invariant — without rejecting it:
the create path validates only the tag count, while the domain's own
`Note.change_title` (used by the update path) rejects the same value.
The failing input is the command with `title=""`. -/
theorem create_note_persists_unvalidated_title :
    (create_note ⟨['u'], [], ['c'], ['2','0','2','4','0','1','0','1'], none⟩
        5 ['n'] [] ⟨[], [], []⟩).2
      = .ok ⟨['n'], ['u'], [], ['c'], ['2','0','2','4','0','1','0','1'], [], 5, 5⟩
    ∧ ((create_note ⟨['u'], [], ['c'], ['2','0','2','4','0','1','0','1'], none⟩
        5 ['n'] [] ⟨[], [], []⟩).1.notes.map NoteRow.title) = [[]]
    ∧ change_title ⟨['n'], ['u'], ['t'], ['c'], ['d'], [], 0, 0⟩ [] 5
      = .error .pythonValueError := ⟨rfl, rfl, rfl⟩

/-- Witness for C9 amended at a concrete conflicting save. -/
theorem tag_conflict_no_retry_witness :
    (note_save_with_tag_conflict true ⟨[], [], []⟩ ['u']
        ⟨['m'], ['u'], ['t'], ['c'], ['d'], [], 1, 1⟩).2 = 1
    ∧ (note_save_with_tag_conflict true ⟨[], [], []⟩ ['u']
        ⟨['m'], ['u'], ['t'], ['c'], ['d'], [], 1, 1⟩).1
      = .error .conflictException := by
  have h := tag_conflict_no_retry true ⟨[], [], []⟩ ['u']
    ⟨['m'], ['u'], ['t'], ['c'], ['d'], [], 1, 1⟩
  exact ⟨h.1, h.2 rfl⟩

/-- C5: the `except IntegrityError` translation in
`SqlAlchemyUserRepository.save` is dead code: the `session.flush()` it
guards is never awaited, so `save` itself cannot raise (first
conjunct: it just pends the row, a duplicate included), and the
`email` unique-constraint violation — reachable when a concurrent
duplicate slips past the service's pre-check — surfaces at the
Unit-of-Work commit as the raw storage `IntegrityError`, which is not
the domain Conflict (second and third conjuncts).  The claim's
sequential scenario itself does fail with Conflict and leaves exactly
one row with the email, but only via the service's `find_by_email`
pre-check (last two conjuncts). -/
theorem create_user_duplicate_email_leak :
    user_repo_save [⟨['i'], ['n'], ['e'], ['p'], none, ['u'], 0, 0⟩]
        ⟨['j'], ['m'], ['e'], ['q'], none, ['u'], 3, 3⟩
      = [⟨['i'], ['n'], ['e'], ['p'], none, ['u'], 0, 0⟩,
          ⟨['j'], ['m'], ['e'], ['q'], none, ['u'], 3, 3⟩]
    ∧ user_insert_commit [⟨['i'], ['n'], ['e'], ['p'], none, ['u'], 0, 0⟩]
        ⟨['j'], ['m'], ['e'], ['q'], none, ['u'], 3, 3⟩
      = .error .integrityError
    ∧ AppError.integrityError ≠ AppError.conflictException
    ∧ (create_user [⟨['i'], ['n'], ['e'], ['p'], none, ['u'], 0, 0⟩]
        ['j'] ['m'] ['e'] ['q'] none ['u'] 3).2 = .error .conflictException
    ∧ ((create_user [⟨['i'], ['n'], ['e'], ['p'], none, ['u'], 0, 0⟩]
        ['j'] ['m'] ['e'] ['q'] none ['u'] 3).1.filter
          (fun r => r.email == ['e'])).length = 1 :=
  ⟨rfl, rfl, by decide, rfl, rfl⟩

/-- Inversion of a successful decode: the token was signed with the
provider's secret, its expiry (when present) has not passed, and the
returned claims are the token's claims. -/
theorem decode_access_token_ok_inv (p : JwtProvider) (now : Int)
    (t : JwtToken) (cl : JwtClaims)
    (hdec : decode_access_token p now t = .ok cl) :
    cl = t.claims ∧ t.signedWith = p.secret_key
    ∧ (∀ e, t.claims.exp = some e → now ≤ e) := by
  unfold decode_access_token at hdec
  by_cases hsig : t.signedWith = p.secret_key
  · rw [if_neg (by simpa using hsig)] at hdec
    rcases hexp : t.claims.exp with _ | e
    · rw [hexp] at hdec
      simp at hdec
      refine ⟨hdec.symm, hsig, ?_⟩
      intro e he
      cases he
    · rw [hexp] at hdec
      by_cases hlt : e < now
      · simp [hlt] at hdec
      · simp [hlt] at hdec
        refine ⟨hdec.symm, hsig, ?_⟩
        intro e2 he2
        injection he2 with h2
        omega
  · rw [if_pos (by simpa using hsig)] at hdec
    simp at hdec

/-- C6: token verification fails with Unauthorized on a bad signature
and on a passed expiry (in particular for a token issued with
`ttl = -1` second), fails with Forbidden when the token decodes but its
claims lack a (non-empty) subject or role, and accepts a token only if
it is signed with the provider's secret, unexpired, and carries both a
subject and a role. -/
theorem token_verification_classification (p : JwtProvider) (now : Int)
    (t : JwtToken) :
    (t.signedWith ≠ p.secret_key →
      get_current_user p now t = .error .unauthorizedException)
    ∧ (∀ e : Int, t.signedWith = p.secret_key → t.claims.exp = some e →
        e < now → get_current_user p now t = .error .unauthorizedException)
    ∧ (∀ cl, decode_access_token p now t = .ok cl →
        (truthyStr cl.sub = false ∨ truthyStr cl.role = false) →
        get_current_user p now t = .error .forbiddenException)
    ∧ (∀ u, get_current_user p now t = .ok u →
        t.signedWith = p.secret_key
        ∧ (∀ e, t.claims.exp = some e → now ≤ e)
        ∧ truthyStr t.claims.sub = true ∧ truthyStr t.claims.role = true)
    ∧ (∀ data role, get_current_user p now
        (create_access_token p data role (some (-1)) now)
          = .error .unauthorizedException) := by
  refine ⟨?_, ?_, ?_, ?_, ?_⟩
  · intro hsig
    simp [get_current_user, decode_access_token, hsig]
  · intro e hsig hexp hlt
    simp [get_current_user, decode_access_token, hsig, hexp, hlt]
  · intro cl hdec hbad
    simp only [get_current_user, hdec]
    rcases hbad with hb | hb <;> simp [hb]
  · intro u hok
    rcases hdec : decode_access_token p now t with err | cl
    · simp [get_current_user, hdec] at hok
    · obtain ⟨hclt, hsig, hexp⟩ := decode_access_token_ok_inv p now t cl hdec
      simp only [get_current_user, hdec] at hok
      by_cases htr : (truthyStr cl.sub && truthyStr cl.role) = true
      · have hpair := (Bool.and_eq_true _ _).mp htr
        exact ⟨hsig, hexp, hclt ▸ hpair.1, hclt ▸ hpair.2⟩
      · rw [if_neg (by simpa using htr)] at hok
        cases hok
  · intro data role
    have hlt : now + (-1) < now := by omega
    have hne : (-1 : Int) ≠ 0 := by decide
    simp [get_current_user, create_access_token, decode_access_token, hne, hlt]

/-- Witness for C6: a tampered token, an expired token, a token without
a subject, and a `ttl = -1` token, all at concrete values. -/
theorem token_verification_classification_witness :
    get_current_user ⟨['s'], 30⟩ 0
        ⟨⟨some ['u'], none, some ['r'], some 50⟩, ['x']⟩
      = .error .unauthorizedException
    ∧ get_current_user ⟨['s'], 30⟩ 0
        ⟨⟨some ['u'], none, some ['r'], some (-5)⟩, ['s']⟩
      = .error .unauthorizedException
    ∧ get_current_user ⟨['s'], 30⟩ 0
        ⟨⟨none, none, some ['r'], none⟩, ['s']⟩
      = .error .forbiddenException
    ∧ get_current_user ⟨['s'], 30⟩ 7
        (create_access_token ⟨['s'], 30⟩ ⟨some ['u'], none, none, none⟩
          ['r'] (some (-1)) 7)
      = .error .unauthorizedException := by
  refine ⟨?_, ?_, ?_, ?_⟩
  · exact (token_verification_classification ⟨['s'], 30⟩ 0 _).1 (by decide)
  · exact (token_verification_classification ⟨['s'], 30⟩ 0 _).2.1
      (-5) rfl rfl (by decide)
  · exact (token_verification_classification ⟨['s'], 30⟩ 0 _).2.2.1
      ⟨none, none, some ['r'], none⟩ rfl (Or.inl rfl)
  · exact (token_verification_classification ⟨['s'], 30⟩ 7
      ⟨⟨none, none, none, none⟩, ['s']⟩).2.2.2.2
      ⟨some ['u'], none, none, none⟩ ['r']

/-- C10: every token the admin path accepts (valid signature, unexpired,
role exactly `"admin"`) yields the constant identity `"ADMIN_USER_ID"`;
the token's `sub` claim is never consulted, so the result does not
identify the presenting admin. -/
theorem get_admin_user_constant_identity (p : JwtProvider) (now : Int)
    (t : JwtToken)
    (hsig : t.signedWith = p.secret_key)
    (hexp : ∀ e, t.claims.exp = some e → now ≤ e)
    (hrole : t.claims.role = some adminRole) :
    get_admin_user p now t = .ok ⟨ADMIN_USER_ID, adminRole⟩ := by
  have hdec : decode_access_token p now t = .ok t.claims := by
    rcases he : t.claims.exp with _ | e
    · simp [decode_access_token, hsig, he]
    · have h2 : ¬ e < now := by have := hexp e he; omega
      simp [decode_access_token, hsig, he, h2]
  simp [get_admin_user, hdec, hrole, truthyStr, adminRole]

/-- Witness for C10: a concrete admin token whose subject is
`"xy"`, yet the returned identity is the constant `"ADMIN_USER_ID"`. -/
theorem get_admin_user_constant_identity_witness :
    get_admin_user ⟨['s'], 30⟩ 0
        ⟨⟨some ['x', 'y'], none, some adminRole, some 9⟩, ['s']⟩
      = .ok ⟨ADMIN_USER_ID, adminRole⟩
    ∧ ['x', 'y'] ≠ ADMIN_USER_ID := by
  refine ⟨get_admin_user_constant_identity ⟨['s'], 30⟩ 0 _ rfl ?_ rfl, by decide⟩
  intro e he
  injection he with h
  omega

/-- For a name of the note's own tag list, the batch-query dict lookup
reduces to the last `tag` row of that name. -/
theorem tagLookup_eq (T : List TagRow) (names : List Str) (nm : Str)
    (h : nm ∈ names) :
    tagLookup T names nm = (T.filter (fun t => t.name == nm)).getLast? := by
  unfold tagLookup
  rw [List.filter_filter]
  congr 1
  apply List.filter_congr
  intro t _
  by_cases ht : t.name = nm
  · rw [ht]
    simp [h]
  · simp [ht]

theorem tagNameCount_append (a b : List TagRow) (nm : Str) :
    tagNameCount (a ++ b) nm = tagNameCount a nm + tagNameCount b nm := by
  simp [tagNameCount, List.filter_append]

theorem tagNameCount_eq_zero_iff (T : List TagRow) (nm : Str) :
    tagNameCount T nm = 0 ↔ T.filter (fun t => t.name == nm) = [] := by
  simp [tagNameCount, List.length_eq_zero]

/-- A name the note does not mention gets no created row. -/
theorem resolveTags_created_zero (T : List TagRow) (names : List Str)
    (tags : List Tag) (nm : Str) (hnot : nm ∉ tags.map Tag.name) :
    tagNameCount (resolveTags T names tags).2 nm = 0 := by
  induction tags with
  | nil => simp [resolveTags, tagNameCount]
  | cons tag rest ih =>
    rw [List.map_cons, List.mem_cons] at hnot
    push_neg at hnot
    rcases hl : tagLookup T names tag.name with _ | t0 <;>
      simp only [resolveTags, hl]
    · simp only [tagNameCount, List.filter_cons]
      rw [if_neg (by simpa using fun h : tag.name = nm => hnot.1 h.symm)]
      exact ih hnot.2
    · exact ih hnot.2

/-- Every created row's name is missing from the table and mentioned by
the note. -/
theorem resolveTags_created_mem (T : List TagRow) (names : List Str)
    (tags : List Tag) (r : TagRow)
    (hsub : ∀ tg ∈ tags, tg.name ∈ names)
    (hr : r ∈ (resolveTags T names tags).2) :
    tagNameCount T r.name = 0 ∧ r.name ∈ tags.map Tag.name := by
  induction tags with
  | nil => cases hr
  | cons tag rest ih =>
    have hmem : tag.name ∈ names := hsub tag (List.mem_cons_self tag rest)
    have hsub' : ∀ tg ∈ rest, tg.name ∈ names :=
      fun tg htg => hsub tg (List.mem_cons_of_mem _ htg)
    rcases hl : (T.filter (fun t => t.name == tag.name)).getLast? with _ | t0 <;>
      simp only [resolveTags, tagLookup_eq T names tag.name hmem, hl] at hr
    · rcases List.mem_cons.mp hr with rfl | hr'
      · refine ⟨?_, by simp⟩
        exact (tagNameCount_eq_zero_iff T _).mpr (List.getLast?_eq_none_iff.mp hl)
      · rcases ih hsub' hr' with ⟨h1, h2⟩
        exact ⟨h1, by simp [h2]⟩
    · rcases ih hsub' hr with ⟨h1, h2⟩
      exact ⟨h1, by simp [h2]⟩

/-- A name the note mentions and the table lacks gets exactly one
created row — provided the note's tag names are pairwise distinct. -/
theorem resolveTags_created_one (T : List TagRow) (names : List Str)
    (tags : List Tag) (nm : Str)
    (hnd : (tags.map Tag.name).Nodup)
    (hsub : ∀ tg ∈ tags, tg.name ∈ names)
    (hmemnm : nm ∈ tags.map Tag.name)
    (hcnt0 : tagNameCount T nm = 0) :
    tagNameCount (resolveTags T names tags).2 nm = 1 := by
  induction tags with
  | nil => cases hmemnm
  | cons tag rest ih =>
    rw [List.map_cons, List.nodup_cons] at hnd
    have hmem : tag.name ∈ names := hsub tag (List.mem_cons_self tag rest)
    have hsub' : ∀ tg ∈ rest, tg.name ∈ names :=
      fun tg htg => hsub tg (List.mem_cons_of_mem _ htg)
    rcases hl : (T.filter (fun t => t.name == tag.name)).getLast? with _ | t0 <;>
      simp only [resolveTags, tagLookup_eq T names tag.name hmem, hl]
    · by_cases he : tag.name = nm
      · simp only [tagNameCount, List.filter_cons]
        rw [if_pos (by simp [he])]
        rw [List.length_cons]
        have hz := resolveTags_created_zero T names rest nm (he ▸ hnd.1)
        simp only [tagNameCount] at hz
        rw [hz]
      · have hmr : nm ∈ rest.map Tag.name := by
          rw [List.map_cons, List.mem_cons] at hmemnm
          rcases hmemnm with h | h
          · exact absurd h.symm he
          · exact h
        simp only [tagNameCount, List.filter_cons]
        rw [if_neg (by simp [he])]
        exact ih hnd.2 hsub' hmr
    · by_cases he : tag.name = nm
      · exfalso
        rw [he] at hl
        rw [(tagNameCount_eq_zero_iff T nm).mp hcnt0] at hl
        cases hl
      · have hmr : nm ∈ rest.map Tag.name := by
          rw [List.map_cons, List.mem_cons] at hmemnm
          rcases hmemnm with h | h
          · exact absurd h.symm he
          · exact h
        exact ih hnd.2 hsub' hmr

/-- When every name of the note is already stored, the resolution loop
creates no row at all. -/
theorem resolveTags_created_nil (T : List TagRow) (names : List Str)
    (tags : List Tag) (hsub : ∀ tg ∈ tags, tg.name ∈ names)
    (hhave : ∀ tg ∈ tags, tagNameCount T tg.name ≠ 0) :
    (resolveTags T names tags).2 = [] := by
  induction tags with
  | nil => rfl
  | cons tag rest ih =>
    have hmem : tag.name ∈ names := hsub tag (List.mem_cons_self tag rest)
    have hsub' : ∀ tg ∈ rest, tg.name ∈ names :=
      fun tg htg => hsub tg (List.mem_cons_of_mem _ htg)
    have hhave' : ∀ tg ∈ rest, tagNameCount T tg.name ≠ 0 :=
      fun tg htg => hhave tg (List.mem_cons_of_mem _ htg)
    rcases hl : (T.filter (fun t => t.name == tag.name)).getLast? with _ | t0 <;>
      simp only [resolveTags, tagLookup_eq T names tag.name hmem, hl]
    · exact absurd ((tagNameCount_eq_zero_iff T tag.name).mpr
        (List.getLast?_eq_none_iff.mp hl))
        (hhave tag (List.mem_cons_self tag rest))
    · exact ih hsub' hhave'

theorem note_save_tags_eq (st : NoteStore) (uid : Str) (note : Note) :
    (note_save st uid note).tags
      = st.tags ++
        (if note.tags.isEmpty then (([], []) : List TagRow × List TagRow)
          else resolveTags st.tags (note.tags.map Tag.name) note.tags).2 := rfl

theorem note_save_note_tag_eq (st : NoteStore) (uid : Str) (note : Note) :
    (note_save st uid note).note_tag
      = st.note_tag.filter (fun p => !(p.1 == note.id)) ++
        (if note.tags.isEmpty then (([], []) : List TagRow × List TagRow)
          else resolveTags st.tags (note.tags.map Tag.name) note.tags).1.map
          (fun t => (note.id, t.id)) := rfl

/-- C2 amended: for a note whose tag names are pairwise distinct, saved
into a table with at most one row per name (the unique-name invariant),
one save leaves exactly one `tag` row per mentioned name, a second
identical save adds no row (so the count stays one per name), and each
save replaces the note's association rows with exactly the resolved
models. -/
theorem note_save_idempotent_tag_resolution (st : NoteStore) (uid : Str)
    (note : Note)
    (hnames : (note.tags.map Tag.name).Nodup)
    (htable : ∀ nm, tagNameCount st.tags nm ≤ 1) :
    (∀ nm ∈ note.tags.map Tag.name,
        tagNameCount (note_save st uid note).tags nm = 1)
    ∧ (note_save (note_save st uid note) uid note).tags
        = (note_save st uid note).tags
    ∧ (∀ nm ∈ note.tags.map Tag.name,
        tagNameCount (note_save (note_save st uid note) uid note).tags nm = 1)
    ∧ (note.tags.isEmpty = false →
        (note_save st uid note).note_tag.filter (fun p => p.1 == note.id)
          = (resolveTags st.tags (note.tags.map Tag.name) note.tags).1.map
              (fun t => (note.id, t.id))) := by
  have hsub : ∀ tg ∈ note.tags, tg.name ∈ note.tags.map Tag.name :=
    fun tg h => List.mem_map_of_mem Tag.name h
  have hpart1 : ∀ nm ∈ note.tags.map Tag.name,
      tagNameCount (note_save st uid note).tags nm = 1 := by
    intro nm hnm
    have hne : note.tags.isEmpty = false := by
      cases hnn : note.tags with
      | nil => rw [hnn] at hnm; cases hnm
      | cons a l => rfl
    rw [note_save_tags_eq, if_neg (by simp [hne]), tagNameCount_append]
    by_cases h0 : tagNameCount st.tags nm = 0
    · rw [h0, resolveTags_created_one st.tags _ note.tags nm hnames hsub hnm h0]
    · have h1 : tagNameCount st.tags nm = 1 := by
        have := htable nm
        omega
      have hzero : tagNameCount
          (resolveTags st.tags (note.tags.map Tag.name) note.tags).2 nm = 0 := by
        by_contra hnz
        have hfne : (resolveTags st.tags (note.tags.map Tag.name)
            note.tags).2.filter (fun t => t.name == nm) ≠ [] :=
          fun hnil => hnz ((tagNameCount_eq_zero_iff _ _).mpr hnil)
        rcases List.exists_mem_of_ne_nil _ hfne with ⟨r, hrf⟩
        have hrm := List.mem_filter.mp hrf
        have hmm := resolveTags_created_mem st.tags _ note.tags r hsub hrm.1
        have hrname : r.name = nm := by simpa using hrm.2
        exact h0 (hrname ▸ hmm.1)
      rw [h1, hzero]
  have hpart2 : (note_save (note_save st uid note) uid note).tags
      = (note_save st uid note).tags := by
    rw [note_save_tags_eq (note_save st uid note) uid note]
    cases hnn : note.tags.isEmpty with
    | true => rw [if_pos (by simp [hnn])]; simp
    | false =>
      rw [if_neg (by simp [hnn])]
      rw [resolveTags_created_nil _ _ _ hsub ?hhave]
      · simp
      case hhave =>
        intro tg htg
        rw [hpart1 tg.name (List.mem_map_of_mem Tag.name htg)]
        omega
  refine ⟨hpart1, hpart2, ?_, ?_⟩
  · intro nm hnm
    rw [hpart2]
    exact hpart1 nm hnm
  · intro hne
    rw [note_save_note_tag_eq, if_neg (by simp [hne]), List.filter_append]
    have hleft : (st.note_tag.filter (fun p => !(p.1 == note.id))).filter
        (fun p => p.1 == note.id) = [] := by
      rw [List.filter_filter]
      rw [List.filter_congr
        (fun pr _ => show ((pr.1 == note.id) && !(pr.1 == note.id)) = false
          from Bool.and_not_self _)]
      exact List.filter_false _
    have hright : ((resolveTags st.tags (note.tags.map Tag.name)
        note.tags).1.map (fun t => (note.id, t.id))).filter
          (fun p => p.1 == note.id)
        = (resolveTags st.tags (note.tags.map Tag.name) note.tags).1.map
          (fun t => (note.id, t.id)) := by
      apply List.filter_eq_self.mpr
      intro x hx
      rcases List.mem_map.mp hx with ⟨t, _, rfl⟩
      simp
    rw [hleft, hright, List.nil_append]

/-- C2 counterexample: storing a note whose tag list repeats the name
`"a"` (two domain tags, distinct ids, same name) twice into an empty
store leaves two `tag` rows named `"a"`, not one row per distinct
name. -/
theorem note_save_duplicate_names_counterexample :
    tagNameCount
      (note_save (note_save ⟨[], [], []⟩ ['u']
          ⟨['n'], ['u'], ['t'], ['c'], ['d'],
            [⟨['t', '1'], ['a'], 0, 0⟩, ⟨['t', '2'], ['a'], 0, 0⟩], 1, 1⟩) ['u']
          ⟨['n'], ['u'], ['t'], ['c'], ['d'],
            [⟨['t', '1'], ['a'], 0, 0⟩, ⟨['t', '2'], ['a'], 0, 0⟩], 1, 1⟩).tags
      ['a'] = 2
    ∧ (2 : Nat) ≠ 1 := ⟨rfl, by decide⟩

/-- Witness for C2 amended: saving a note with tag names `["a", "b"]`
twice into an empty store yields exactly one row named `"a"` and one
named `"b"`. -/
theorem note_save_idempotent_tag_resolution_witness :
    tagNameCount
      (note_save (note_save ⟨[], [], []⟩ ['u']
          ⟨['n'], ['u'], ['t'], ['c'], ['d'],
            [⟨['t', '1'], ['a'], 0, 0⟩, ⟨['t', '3'], ['b'], 0, 0⟩], 1, 1⟩) ['u']
          ⟨['n'], ['u'], ['t'], ['c'], ['d'],
            [⟨['t', '1'], ['a'], 0, 0⟩, ⟨['t', '3'], ['b'], 0, 0⟩], 1, 1⟩).tags
      ['a'] = 1
    ∧ tagNameCount
      (note_save (note_save ⟨[], [], []⟩ ['u']
          ⟨['n'], ['u'], ['t'], ['c'], ['d'],
            [⟨['t', '1'], ['a'], 0, 0⟩, ⟨['t', '3'], ['b'], 0, 0⟩], 1, 1⟩) ['u']
          ⟨['n'], ['u'], ['t'], ['c'], ['d'],
            [⟨['t', '1'], ['a'], 0, 0⟩, ⟨['t', '3'], ['b'], 0, 0⟩], 1, 1⟩).tags
      ['b'] = 1 := by
  have h := note_save_idempotent_tag_resolution ⟨[], [], []⟩ ['u']
    ⟨['n'], ['u'], ['t'], ['c'], ['d'],
      [⟨['t', '1'], ['a'], 0, 0⟩, ⟨['t', '3'], ['b'], 0, 0⟩], 1, 1⟩
    (by decide) (fun nm => by simp [tagNameCount])
  exact ⟨h.2.2.1 ['a'] (by decide), h.2.2.1 ['b'] (by decide)⟩

theorem digitChar_isDigit : ∀ n, n < 10 → isDigitChar (digitChar n) = true := by
  decide

theorem digitVal_digitChar : ∀ n, n < 10 → digitVal (digitChar n) = n := by
  decide

theorem pad2_no_underscore : ∀ n, n < 100 → ('_' ∈ pad2 n) = False := by
  decide

theorem read2_pad2 (n : Nat) (h : n < 100) (rest : Str) :
    read2 (pad2 n ++ rest) = some (n, rest) := by
  have h1 : n / 10 < 10 := by omega
  have h2 : n % 10 < 10 := by omega
  simp only [pad2, List.cons_append, List.nil_append, read2,
    digitChar_isDigit _ h1, digitChar_isDigit _ h2, Bool.and_self, if_true,
    digitVal_digitChar _ h1, digitVal_digitChar _ h2]
  have : 10 * (n / 10) + n % 10 = n := by omega
  rw [this]

theorem read4_pad4 (n : Nat) (h : n < 10000) (rest : Str) :
    read4 (pad4 n ++ rest) = some (n, rest) := by
  simp only [pad4, List.append_assoc, read4,
    read2_pad2 (n / 100) (by omega), read2_pad2 (n % 100) (by omega)]
  have : 100 * (n / 100) + n % 100 = n := by omega
  rw [this]

theorem read6_pad6 (n : Nat) (h : n < 1000000) (rest : Str) :
    read6 (pad6 n ++ rest) = some (n, rest) := by
  simp only [pad6, List.append_assoc, read6,
    read2_pad2 (n / 10000) (by omega), read2_pad2 (n / 100 % 100) (by omega),
    read2_pad2 (n % 100) (by omega)]
  have : 10000 * (n / 10000) + 100 * (n / 100 % 100) + n % 100 = n := by omega
  rw [this]

theorem expectCh_cons (c : Char) (rest : Str) :
    expectCh c (c :: rest) = some rest := by
  simp [expectCh]

theorem isoformat_eq (d : PyDateTime) :
    isoformat d = pad4 d.year ++ ('-' :: (pad2 d.month ++ ('-' :: (pad2 d.day ++
      ('T' :: (pad2 d.hour ++ (':' :: (pad2 d.minute ++ (':' :: (pad2 d.second ++
      (if d.microsecond == 0 then []
        else '.' :: (pad6 d.microsecond ++ [])))))))))))) := by
  unfold isoformat
  simp only [List.append_assoc, List.cons_append, List.append_nil]

theorem parseIso_isoformat (d : PyDateTime) (h : d.Valid) :
    parseIso (isoformat d) = some d := by
  have hvalid : decide d.Valid = true := decide_eq_true h
  obtain ⟨h1, h2, h3, h4, h5, h6, h7, h8, h9, h10⟩ := h
  rw [isoformat_eq]
  by_cases hus : d.microsecond = 0
  · rw [if_pos (by simp [hus])]
    simp only [parseIso, read4_pad4 d.year (by omega), expectCh_cons,
      read2_pad2 d.month (by omega), read2_pad2 d.day (by omega),
      read2_pad2 d.hour (by omega), read2_pad2 d.minute (by omega),
      read2_pad2 d.second (by omega), readFrac]
    rw [← hus]
    simp [hvalid]
  · rw [if_neg (by simp [hus])]
    simp only [parseIso, read4_pad4 d.year (by omega), expectCh_cons,
      read2_pad2 d.month (by omega), read2_pad2 d.day (by omega),
      read2_pad2 d.hour (by omega), read2_pad2 d.minute (by omega),
      read2_pad2 d.second (by omega), readFrac, beq_self_eq_true, if_true,
      read6_pad6 d.microsecond (by omega)]
    simp only [List.isEmpty_nil, hvalid, Bool.and_self, if_true]

theorem pad2_ne_underscore (n : Nat) (h : n < 100) (c : Char) (hc : c ∈ pad2 n) :
    c ≠ '_' := by
  intro hcu
  rw [hcu] at hc
  exact (pad2_no_underscore n h).mp hc

theorem pad4_no_underscore (n : Nat) (h : n < 10000) : '_' ∉ pad4 n := by
  intro hm
  rcases List.mem_append.mp hm with hm | hm
  · exact pad2_ne_underscore (n / 100) (by omega) _ hm rfl
  · exact pad2_ne_underscore (n % 100) (by omega) _ hm rfl

theorem pad6_no_underscore (n : Nat) (h : n < 1000000) : '_' ∉ pad6 n := by
  intro hm
  rcases List.mem_append.mp hm with hm | hm
  · rcases List.mem_append.mp hm with hm | hm
    · exact pad2_ne_underscore (n / 10000) (by omega) _ hm rfl
    · exact pad2_ne_underscore (n / 100 % 100) (by omega) _ hm rfl
  · exact pad2_ne_underscore (n % 100) (by omega) _ hm rfl

/-- No character of a valid datetime's ISO rendering is an underscore. -/
theorem isoformat_no_underscore (d : PyDateTime) (h : d.Valid) :
    '_' ∉ isoformat d := by
  obtain ⟨h1, h2, h3, h4, h5, h6, h7, h8, h9, h10⟩ := h
  rw [isoformat_eq]
  intro hmem
  rcases List.mem_append.mp hmem with hm | hmem
  · exact pad4_no_underscore d.year (by omega) hm
  rcases List.mem_cons.mp hmem with hm | hmem
  · exact absurd hm (by decide)
  rcases List.mem_append.mp hmem with hm | hmem
  · exact pad2_ne_underscore d.month (by omega) _ hm rfl
  rcases List.mem_cons.mp hmem with hm | hmem
  · exact absurd hm (by decide)
  rcases List.mem_append.mp hmem with hm | hmem
  · exact pad2_ne_underscore d.day (by omega) _ hm rfl
  rcases List.mem_cons.mp hmem with hm | hmem
  · exact absurd hm (by decide)
  rcases List.mem_append.mp hmem with hm | hmem
  · exact pad2_ne_underscore d.hour (by omega) _ hm rfl
  rcases List.mem_cons.mp hmem with hm | hmem
  · exact absurd hm (by decide)
  rcases List.mem_append.mp hmem with hm | hmem
  · exact pad2_ne_underscore d.minute (by omega) _ hm rfl
  rcases List.mem_cons.mp hmem with hm | hmem
  · exact absurd hm (by decide)
  rcases List.mem_append.mp hmem with hm | hmem
  · exact pad2_ne_underscore d.second (by omega) _ hm rfl
  by_cases hus : d.microsecond = 0
  · rw [if_pos (by simp [hus])] at hmem
    cases hmem
  · rw [if_neg (by simp [hus])] at hmem
    rcases List.mem_cons.mp hmem with hm | hmem
    · exact absurd hm (by decide)
    rcases List.mem_append.mp hmem with hm | hm
    · exact pad6_no_underscore d.microsecond (by omega) hm
    · cases hm

theorem pysplit_no_sep (sep : Char) (l : Str) (h : sep ∉ l) :
    pysplit sep l = [l] := by
  induction l with
  | nil => rfl
  | cons c cs ih =>
    have hc : (c == sep) = false := by
      simp only [beq_eq_false_iff_ne, ne_eq]
      intro hcc
      exact h (hcc ▸ List.mem_cons_self c cs)
    have ih' := ih (fun hm => h (List.mem_cons_of_mem c hm))
    simp only [pysplit, hc, Bool.false_eq_true, if_false, ih']

theorem pysplit_append (sep : Char) (a b : Str) (ha : sep ∉ a) :
    pysplit sep (a ++ sep :: b) = a :: pysplit sep b := by
  induction a with
  | nil => simp only [List.nil_append, pysplit, beq_self_eq_true, if_true]
  | cons c cs ih =>
    have hc : (c == sep) = false := by
      simp only [beq_eq_false_iff_ne, ne_eq]
      intro hcc
      exact ha (hcc ▸ List.mem_cons_self c cs)
    have ih' := ih (fun hm => ha (List.mem_cons_of_mem c hm))
    simp only [List.cons_append, pysplit, hc, Bool.false_eq_true, if_false,
      List.append_eq, ih']

/-- C7 amended: `parse_cursor` splits on every underscore and keeps the
first two segments: the timestamp parses from the segment before the
first `_`, the id is the segment between the first and the second `_`
(text after a second underscore is dropped, not kept in the id); an
empty id segment is returned as the empty id rather than rejected; for
every cursor published by the services (ISO timestamp, then `_`, then a
non-empty underscore-free uuid) it returns exactly the encoded pair. -/
theorem parse_cursor_decode (d : PyDateTime) (hd : d.Valid) :
    (∀ cid : Str, cid ≠ [] → '_' ∉ cid →
      parse_cursor (encode_cursor d cid) = .ok (some d, some cid))
    ∧ (∀ a b : Str, '_' ∉ a →
      parse_cursor (encode_cursor d (a ++ '_' :: b))
        = .ok (some d, some a)) := by
  constructor
  · intro cid hne hnu
    unfold parse_cursor encode_cursor
    rw [if_neg (by simp)]
    rw [pysplit_append '_' (isoformat d) cid (isoformat_no_underscore d hd),
      pysplit_no_sep '_' cid hnu]
    simp only [List.headD_cons, fromisoformat, parseIso_isoformat d hd,
      List.getElem?_cons_succ, List.getElem?_cons_zero]
  · intro a b ha
    unfold parse_cursor encode_cursor
    rw [if_neg (by simp)]
    rw [pysplit_append '_' (isoformat d) (a ++ '_' :: b)
        (isoformat_no_underscore d hd),
      pysplit_append '_' a b ha]
    simp only [List.headD_cons, fromisoformat, parseIso_isoformat d hd,
      List.getElem?_cons_succ, List.getElem?_cons_zero]

/-- C7 counterexample: a cursor whose id segment is empty decodes
successfully to the empty id (no Validation error), and a cursor whose
id part contains an underscore is truncated at it rather than returned
whole. -/
theorem parse_cursor_counterexample :
    parse_cursor (encode_cursor ⟨2024, 1, 1, 0, 0, 0, 0⟩ [])
      = .ok (some ⟨2024, 1, 1, 0, 0, 0, 0⟩, some [])
    ∧ parse_cursor (encode_cursor ⟨2024, 1, 1, 0, 0, 0, 0⟩
        (['a'] ++ '_' :: ['b']))
      = .ok (some ⟨2024, 1, 1, 0, 0, 0, 0⟩, some ['a']) := ⟨rfl, rfl⟩

/-- Witness for C7 amended at a concrete datetime and id. -/
theorem parse_cursor_decode_witness :
    parse_cursor (encode_cursor ⟨2024, 1, 2, 3, 4, 5, 0⟩ ['x'])
      = .ok (some ⟨2024, 1, 2, 3, 4, 5, 0⟩, some ['x'])
    ∧ parse_cursor (encode_cursor ⟨2024, 1, 2, 3, 4, 5, 0⟩
        (['y'] ++ '_' :: ['z']))
      = .ok (some ⟨2024, 1, 2, 3, 4, 5, 0⟩, some ['y']) := by
  have h := parse_cursor_decode ⟨2024, 1, 2, 3, 4, 5, 0⟩ (by decide)
  exact ⟨h.1 ['x'] (by decide) (by decide), h.2 ['y'] ['z'] (by decide)⟩

/-- Every `get_notes` call is the `limit`-prefix of the sort of some
sublist of the store (whichever `WHERE` clauses apply). -/
theorem get_notes_shape (store : List NoteRow) (uid : Str) (lim : Nat)
    (ca : Option Nat) (ci : Option Str) :
    ∃ rows : List NoteRow,
      get_notes store uid lim ca ci = (sortBy noteOrd rows).take lim
      ∧ rows.Sublist store := by
  rcases ca with _ | ca <;> rcases ci with _ | ci
  · exact ⟨ownerRows store uid, rfl, List.filter_sublist store⟩
  · exact ⟨ownerRows store uid, rfl, List.filter_sublist store⟩
  · exact ⟨ownerRows store uid, rfl, List.filter_sublist store⟩
  · by_cases hci : ci.isEmpty
    · refine ⟨ownerRows store uid, ?_, List.filter_sublist store⟩
      simp [get_notes, hci, ownerRows]
    · refine ⟨(ownerRows store uid).filter
        (fun n => decide (KeyLt n.key (ca, ci))), ?_,
        ((List.filter_sublist _).trans (List.filter_sublist store))⟩
      simp only [get_notes, hci, Bool.false_eq_true, if_false]
      rfl

/-- C1 amended: for a store with primary-key-distinct, non-empty note
ids, every page holds at most `limit` rows in strictly descending
`(created_at, id)` order; a supplied cursor with a non-empty id
component restricts a page to rows strictly below the cursor pair (an
empty cursor id disables the predicate — hence the restriction); and for
every positive `limit`, paging from the start by feeding back the last
row's `(created_at, id)` visits, in order and without repeating an id,
exactly the owner's stored rows. -/
theorem get_notes_keyset_pagination (store : List NoteRow) (uid : Str)
    (limit : Nat)
    (hid : (store.map NoteRow.id).Nodup)
    (hne : ∀ n ∈ store, n.id ≠ [])
    (hlim : 0 < limit) :
    (∀ lim ca ci, (get_notes store uid lim ca ci).length ≤ lim)
    ∧ (∀ lim ca ci, (get_notes store uid lim ca ci).Pairwise NoteGt)
    ∧ (∀ lim ca ci n, ci ≠ [] →
        n ∈ get_notes store uid lim (some ca) (some ci) →
        n.user_id = uid ∧ KeyLt n.key (ca, ci))
    ∧ ((notePages store uid limit (store.length + 1) none).flatten.map
        NoteRow.id).Nodup
    ∧ (∀ n, n ∈ (notePages store uid limit (store.length + 1) none).flatten ↔
        n ∈ store ∧ n.user_id = uid) := by
  have hjoin : (notePages store uid limit (store.length + 1) none).flatten
      = sortedOwner store uid := by
    apply notePages_join_eq store uid limit hid hne hlim (store.length + 1)
      none [] (sortedOwner store uid) (List.nil_append _).symm
    · have h1 : (sortedOwner store uid).length = (ownerRows store uid).length :=
        (sortBy_perm noteOrd _).length_eq
      have h2 : (ownerRows store uid).length ≤ store.length :=
        List.length_filter_le _ store
      omega
    · exact Or.inl ⟨rfl, rfl⟩
  refine ⟨?_, ?_, ?_, ?_, ?_⟩
  · intro lim ca ci
    obtain ⟨rows, heq, _⟩ := get_notes_shape store uid lim ca ci
    rw [heq]
    exact List.length_take_le _ _
  · intro lim ca ci
    obtain ⟨rows, heq, hsub⟩ := get_notes_shape store uid lim ca ci
    rw [heq]
    have hnodup : (rows.map NoteRow.id).Nodup :=
      hid.sublist (hsub.map NoteRow.id)
    exact (pairwise_noteGt_of_ord
      (sortBy_pairwise noteOrd noteOrd_total noteOrd_trans rows)
      (sortBy_id_nodup hnodup)).sublist (List.take_sublist _ _)
  · intro lim ca ci n hci hmem
    rw [get_notes_cursor_eq store uid lim ca ci hci hid] at hmem
    have hmem2 := List.take_subset _ _ hmem
    have hmem3 := List.mem_filter.mp hmem2
    have hmem4 : n ∈ ownerRows store uid :=
      (sortBy_perm noteOrd _).mem_iff.mp hmem3.1
    refine ⟨?_, of_decide_eq_true hmem3.2⟩
    have := (List.mem_filter.mp hmem4).2
    simpa using this
  · rw [hjoin]
    exact sortedOwner_id_nodup hid
  · intro n
    rw [hjoin]
    unfold sortedOwner
    rw [(sortBy_perm noteOrd _).mem_iff]
    unfold ownerRows
    rw [List.mem_filter]
    simp

/-- C1 counterexample: with a cursor whose id component is the empty
string the keyset predicate is skipped entirely (the returned row is not
strictly below the cursor pair), and with `limit = 0` pagination
terminates at once with an empty union although the owner's set is
non-empty. -/
theorem get_notes_keyset_counterexample :
    get_notes [⟨['a'], ['u'], ['t'], ['c'], ['d'], 5, 5⟩] ['u'] 10
        (some 5) (some [])
      = [⟨['a'], ['u'], ['t'], ['c'], ['d'], 5, 5⟩]
    ∧ ¬ KeyLt (⟨['a'], ['u'], ['t'], ['c'], ['d'], 5, 5⟩ : NoteRow).key
        (5, ([] : Str))
    ∧ (notePages [⟨['a'], ['u'], ['t'], ['c'], ['d'], 5, 5⟩] ['u'] 0 2
        none).flatten = []
    ∧ (⟨['a'], ['u'], ['t'], ['c'], ['d'], 5, 5⟩ : NoteRow)
        ∈ [(⟨['a'], ['u'], ['t'], ['c'], ['d'], 5, 5⟩ : NoteRow)]
    ∧ (⟨['a'], ['u'], ['t'], ['c'], ['d'], 5, 5⟩ : NoteRow).user_id = ['u'] :=
  ⟨rfl, by decide, rfl, List.mem_singleton.mpr rfl, rfl⟩

/-- Witness for C1 amended: a two-note store paged with `limit = 1`. -/
theorem get_notes_keyset_pagination_witness :
    ((notePages [⟨['a'], ['u'], ['t'], ['c'], ['d'], 1, 1⟩,
        ⟨['b'], ['u'], ['t'], ['c'], ['d'], 2, 2⟩] ['u'] 1 3 none).flatten.map
      NoteRow.id).Nodup
    ∧ (⟨['b'], ['u'], ['t'], ['c'], ['d'], 2, 2⟩ : NoteRow)
        ∈ (notePages [⟨['a'], ['u'], ['t'], ['c'], ['d'], 1, 1⟩,
            ⟨['b'], ['u'], ['t'], ['c'], ['d'], 2, 2⟩] ['u'] 1 3 none).flatten
    ∧ (get_notes [⟨['a'], ['u'], ['t'], ['c'], ['d'], 1, 1⟩,
        ⟨['b'], ['u'], ['t'], ['c'], ['d'], 2, 2⟩] ['u'] 1 none none).length
      ≤ 1 := by
  have h := get_notes_keyset_pagination
    [⟨['a'], ['u'], ['t'], ['c'], ['d'], 1, 1⟩,
      ⟨['b'], ['u'], ['t'], ['c'], ['d'], 2, 2⟩] ['u'] 1
    (by decide) (by decide) (by decide)
  exact ⟨h.2.2.2.1,
    (h.2.2.2.2 ⟨['b'], ['u'], ['t'], ['c'], ['d'], 2, 2⟩).mpr
      ⟨by simp, rfl⟩,
    h.1 1 none none⟩
